import Mathlib

/-!
Shallow embedding of the berlin location-search core (berlin-core) and proofs
about its specification claims.

Modelling conventions:
* Rust strings are lists of Unicode scalar values (`List Nat`); on the ASCII
  output of the normalizer, byte offsets coincide with these indices.
* The process-wide ustr intern pool is a list of strings; `Ustr::from_existing`
  is a membership lookup.
* A Rust panic (`unwrap`, `expect`, `panic!`) is the `none` case of an
  `Option`-valued function.
* Hash maps (`UstrMap`) are association lists; their iteration order is
  unspecified in the source, and no proved property depends on the order used
  here.
-/

namespace Berlin

/-- A Rust string, as its list of Unicode scalar values. -/
abbrev Str := List Nat

/-- The ustr intern pool. -/
abbrev Pool := List Str

/-- Convert a Lean string literal to the `Str` model. -/
def strOf (s : String) : Str := s.data.map Char.toNat

/-- Models `Ustr::from_existing`: look a string up in the intern pool without
creating it. -/
def fromExisting (pool : Pool) (s : Str) : Option Str :=
  if s ∈ pool then some s else none

/-- Association-list lookup, modelling `HashMap::get` / `UstrMap::get`. -/
def lookupA {α : Type} : List (Str × α) → Str → Option α
  | [], _ => none
  | (k', v) :: rest, k => if k' = k then some v else lookupA rest k

/-- Association-list insert, modelling `HashMap::insert` / `UstrMap::insert`:
replace an existing binding, else append. -/
def insertA {α : Type} : List (Str × α) → Str → α → List (Str × α)
  | [], k, v => [(k, v)]
  | (k', v') :: rest, k, v =>
    if k' = k then (k, v) :: rest else (k', v') :: insertA rest k v

/-- Models one character of `deunicode::deunicode`: ASCII characters map to
themselves; non-ASCII characters go through the crate's transliteration table
(a representative sample is embedded here), defaulting to the crate's ASCII
placeholder. Every output of the crate is ASCII. -/
def deunicodeChar (c : Nat) : Str :=
  if c < 128 then [c]
  else if c = 233 then [101]       -- e acute to e
  else if c = 252 then [117]       -- u umlaut to u
  else if c = 223 then [115, 115]  -- sharp s to ss
  else if c = 198 then [65, 69]    -- AE ligature to AE
  else [91, 63, 93]                -- ASCII placeholder

/-- Models `deunicode::deunicode` over a whole string. -/
def deunicodeStr (s : Str) : Str := (s.map deunicodeChar).flatten

/-- Models Rust `str::to_lowercase` on one character: ASCII uppercase letters
shift into lowercase, other ASCII characters are unchanged; non-ASCII
characters go through the Unicode lowering table (representative sample; these
are never reached after deunicode, whose output is ASCII). -/
def rustLowerChar (c : Nat) : Str :=
  if c < 128 then if 65 ≤ c ∧ c ≤ 90 then [c + 32] else [c]
  else if c = 201 then [233]       -- E acute to e acute
  else if c = 931 then [963]       -- capital sigma to sigma
  else [c]

/-- Models Rust `str::to_lowercase`. -/
def rustLower (s : Str) : Str := (s.map rustLowerChar).flatten

/-- `normalize` from berlin-core/src/lib.rs: deunicode, then lowercase. -/
def normalize (s : Str) : Str := rustLower (deunicodeStr s)

/-- A character is canonical when it is ASCII and fixed by lowercasing. -/
def canonChar (c : Nat) : Prop := c < 128 ∧ rustLowerChar c = [c]

theorem deunicodeChar_out_ascii (c : Nat) : ∀ d ∈ deunicodeChar c, d < 128 := by
  intro d hd
  unfold deunicodeChar at hd
  split_ifs at hd <;> simp_all <;> omega

theorem rustLowerChar_out_canon (c : Nat) (hc : c < 128) :
    ∀ d ∈ rustLowerChar c, canonChar d := by
  intro d hd
  unfold rustLowerChar at hd
  rw [if_pos hc] at hd
  split at hd
  · next h =>
    simp only [List.mem_singleton] at hd
    subst hd
    constructor
    · omega
    · unfold rustLowerChar
      rw [if_pos (by omega)]
      rw [if_neg (by omega)]
  · next h =>
    simp only [List.mem_singleton] at hd
    subst hd
    constructor
    · exact hc
    · unfold rustLowerChar
      rw [if_pos hc]
      rw [if_neg h]

theorem deunicodeStr_out_ascii (s : Str) : ∀ d ∈ deunicodeStr s, d < 128 := by
  intro d hd
  unfold deunicodeStr at hd
  rw [List.mem_flatten] at hd
  obtain ⟨l, hl, hdl⟩ := hd
  rw [List.mem_map] at hl
  obtain ⟨c, _, rfl⟩ := hl
  exact deunicodeChar_out_ascii c d hdl

theorem rustLower_out_canon (s : Str) (hs : ∀ c ∈ s, c < 128) :
    ∀ d ∈ rustLower s, canonChar d := by
  intro d hd
  unfold rustLower at hd
  rw [List.mem_flatten] at hd
  obtain ⟨l, hl, hdl⟩ := hd
  rw [List.mem_map] at hl
  obtain ⟨c, hc, rfl⟩ := hl
  exact rustLowerChar_out_canon c (hs c hc) d hdl

theorem deunicodeStr_canon_fixed (s : Str) (hs : ∀ c ∈ s, canonChar c) :
    deunicodeStr s = s := by
  induction s with
  | nil => rfl
  | cons c rest ih =>
    have hc := hs c (List.mem_cons_self c rest)
    have h1 : deunicodeChar c = [c] := by
      unfold deunicodeChar
      rw [if_pos hc.1]
    have h2 := ih (fun d hd => hs d (List.mem_cons_of_mem c hd))
    unfold deunicodeStr at h2 ⊢
    simp only [List.map_cons, List.flatten_cons, h1, h2]
    rfl

theorem rustLower_canon_fixed (s : Str) (hs : ∀ c ∈ s, canonChar c) :
    rustLower s = s := by
  induction s with
  | nil => rfl
  | cons c rest ih =>
    have hc := hs c (List.mem_cons_self c rest)
    have h2 := ih (fun d hd => hs d (List.mem_cons_of_mem c hd))
    unfold rustLower at h2 ⊢
    simp only [List.map_cons, List.flatten_cons, hc.2, h2]
    rfl

theorem normalize_out_canon (s : Str) : ∀ c ∈ normalize s, canonChar c :=
  rustLower_out_canon (deunicodeStr s) (deunicodeStr_out_ascii s)

/-- C9: normalize is idempotent: for every input string s,
normalize (normalize s) equals normalize s. -/
theorem c9_normalize_idempotent (s : Str) :
    normalize (normalize s) = normalize s := by
  have hc := normalize_out_canon s
  show rustLower (deunicodeStr (normalize s)) = normalize s
  rw [deunicodeStr_canon_fixed _ hc]
  exact rustLower_canon_fixed _ hc

example : strOf ("ab") = [97, 98] := by decide
example : normalize (strOf ("Foo,BAR")) = strOf ("foo,bar") := by decide

/-- Word characters for the `unicode_words` model: ASCII alphanumerics. This
models `UnicodeSegmentation::unicode_words` on the ASCII output of
`normalize` (maximal alphanumeric runs; separators are dropped). -/
def isWordChar (c : Nat) : Bool :=
  decide ((48 ≤ c ∧ c ≤ 57) ∨ (65 ≤ c ∧ c ≤ 90) ∨ (97 ≤ c ∧ c ≤ 122))

/-- Models `normalized.unicode_words().collect()`. -/
def unicodeWords (s : Str) : List Str :=
  (s.splitOnP (fun c => !isWordChar c)).filter (fun w => !w.isEmpty)

example : unicodeWords (strOf ("foo,bar baz")) =
    [strOf ("foo"), strOf ("bar"), strOf ("baz")] := by decide

/-- Byte offset `[start, end)` into the normalized query (search.rs `Offset`;
the `end` field is called `stop` because `end` is reserved in Lean). -/
structure Offset where
  start : Nat
  stop : Nat
deriving DecidableEq

/-- search.rs `MatchDef`: a matched term together with its offset. -/
structure MatchDef where
  term : Str
  offset : Offset
deriving DecidableEq

/-- search.rs `Score`. -/
structure Score where
  score : Int
  offset : Offset
deriving DecidableEq

/-- The total order on Score from search.rs `Ord`: by score, then by offset
start, then by offset end. -/
def Score.leB (a b : Score) : Bool :=
  decide (a.score < b.score ∨ (a.score = b.score ∧
    (a.offset.start < b.offset.start ∨ (a.offset.start = b.offset.start ∧
      a.offset.stop ≤ b.offset.stop))))

/-- Rust `Iterator::max` over scores: none on an empty list, otherwise a
maximal element. Ties under the Rust `Ord` are structurally equal scores, so
the side kept on a tie is irrelevant. -/
def maxScore? (l : List Score) : Option Score :=
  l.foldl (fun acc x => match acc with
    | none => some x
    | some a => if Score.leB a x then some x else some a) none

/-- Rust `std::cmp::max` on `Option<Score>` (`None` is least). -/
def optScoreMax (a b : Option Score) : Option Score :=
  match a, b with
  | none, b => b
  | some x, none => some x
  | some x, some y => if Score.leB x y then some y else some x

/-- search.rs `SearchTerm` (lev_dist is a u32 in the source). -/
structure SearchTerm where
  raw : Str
  normalized : Str
  stop_words : List Str
  codes : List MatchDef
  exact_matches : List MatchDef
  not_exact_matches : List MatchDef
  state_filter : Option Str
  limit : Nat
  lev_dist : Nat
deriving DecidableEq

/-- Models `str::find` of a substring: byte index of its first occurrence. -/
def strFind (hay needle : Str) : Option Nat :=
  if needle.isPrefixOf hay then some 0
  else match hay with
    | [] => none
    | _ :: t => (strFind t needle).map (· + 1)

example : strFind (strOf ("usa usa")) (strOf ("usa")) = some 0 := by decide
example : strFind (strOf ("foo,bar")) (strOf ("foo bar")) = none := by decide

/-- `SearchTerm::add_code`; `none` models the `unwrap` panic when the term
does not occur in the normalized query. -/
def SearchTerm.add_code (st : SearchTerm) (u : Str) : Option SearchTerm :=
  (strFind st.normalized u).map fun start =>
    { st with codes := st.codes ++ [⟨u, ⟨start, start + u.length⟩⟩] }

/-- `SearchTerm::add_exact`; `none` models the `unwrap` panic. -/
def SearchTerm.add_exact (st : SearchTerm) (u : Str) : Option SearchTerm :=
  (strFind st.normalized u).map fun start =>
    { st with exact_matches := st.exact_matches ++ [⟨u, ⟨start, start + u.length⟩⟩] }

/-- `SearchTerm::add_not_exact`; `none` models the `unwrap` panic. -/
def SearchTerm.add_not_exact (st : SearchTerm) (ne : Str) : Option SearchTerm :=
  (strFind st.normalized ne).map fun start =>
    { st with not_exact_matches := st.not_exact_matches ++ [⟨ne, ⟨start, start + ne.length⟩⟩] }

/-- The fixed stop-word list of search.rs. -/
def STOP_WORDS : List Str :=
  [strOf ("at"), strOf ("to"), strOf ("in"), strOf ("on"), strOf ("of"),
   strOf ("for"), strOf ("by"), strOf ("and"), strOf ("was"), strOf ("did"),
   strOf ("the")]

/-- The n-gram part of the per-word loop of `SearchTerm::from_raw_query`: the
two-word concatenation with word i+1 (exact when interned, else not-exact) and
the three-word concatenation with word i+2 (exact only when interned). -/
def frqGrams (pool : Pool) (split_words : List Str) (st : SearchTerm)
    (i : Nat) (w : Str) : Option SearchTerm :=
  if split_words.length > i + 1 then
    match (match fromExisting pool (w ++ [32] ++ split_words.getD (i + 1) []) with
           | some u => st.add_exact u
           | none => st.add_not_exact (w ++ [32] ++ split_words.getD (i + 1) [])) with
    | none => none
    | some st' =>
      if split_words.length > i + 2 then
        match fromExisting pool
            (w ++ [32] ++ split_words.getD (i + 1) [] ++ [32] ++ split_words.getD (i + 2) []) with
        | some u => st'.add_exact u
        | none => some st'
      else some st'
  else some st

/-- The single-word part of the per-word loop of `SearchTerm::from_raw_query`:
unknown words become not-exact matches; interned words of length 0-1 and stop
words are ignored; interned words of length 2-3 become codes and exact
matches; longer interned words become exact matches. -/
def frqWord (pool : Pool) (stop_words : List Str) (st : SearchTerm)
    (w : Str) : Option SearchTerm :=
  match fromExisting pool w with
  | none => st.add_not_exact w
  | some known =>
    if w.length = 0 ∨ w.length = 1 then some st
    else if known ∈ stop_words then some st
    else if w.length = 2 ∨ w.length = 3 then
      match st.add_code known with
      | none => none
      | some st' => st'.add_exact known
    else st.add_exact known

/-- The body of the per-word loop of `SearchTerm::from_raw_query`: n-grams
first, then the word itself, as in the source. -/
def frqStep (pool : Pool) (split_words : List Str) (stop_words : List Str)
    (st : SearchTerm) (iw : Nat × Str) : Option SearchTerm :=
  (frqGrams pool split_words st iw.1 iw.2).bind fun st' =>
    frqWord pool stop_words st' iw.2

/-- `SearchTerm::from_raw_query` from search.rs. The pool models the ustr
intern table; `none` models a panic inside one of the add functions. -/
def SearchTerm.from_raw_query (pool : Pool) (raw : Str) (state_filter : Option Str)
    (limit : Nat) (lev_dist : Nat) : Option SearchTerm :=
  let normalized := normalize raw
  let split_words := unicodeWords normalized
  let stop_words := split_words.filterMap fun w =>
    (fromExisting pool w).filter fun u => decide (u ∈ STOP_WORDS)
  let st0 : SearchTerm :=
    { raw := raw, normalized := normalized, stop_words := stop_words
      codes := [], exact_matches := [], not_exact_matches := []
      state_filter := state_filter.bind (fromExisting pool)
      limit := limit, lev_dist := lev_dist }
  split_words.enum.foldlM (frqStep pool split_words stop_words) st0

/-- C2: the claim says query processing is total, but
`SearchTerm::from_raw_query` panics (`.unwrap()` on `str::find`) whenever a
not-exact doublet joined with a single space does not occur literally in the
normalized query, e.g. for the query "foo,bar". -/
theorem c2_from_raw_query_panics :
    SearchTerm.from_raw_query [] (strOf ("foo,bar")) none 1 2 = none := by decide

theorem fromExisting_eq_some {pool : Pool} {s u : Str}
    (h : fromExisting pool s = some u) : u ∈ pool ∧ u = s := by
  unfold fromExisting at h
  split at h
  · cases h; exact ⟨by assumption, rfl⟩
  · cases h

theorem add_code_inv {st st' : SearchTerm} {u : Str}
    (h : st.add_code u = some st') :
    ∃ start, strFind st.normalized u = some start ∧
      st' = { st with codes := st.codes ++ [⟨u, ⟨start, start + u.length⟩⟩] } := by
  unfold SearchTerm.add_code at h
  cases hf : strFind st.normalized u with
  | none => rw [hf] at h; cases h
  | some start => rw [hf] at h; cases h; exact ⟨start, rfl, rfl⟩

theorem add_exact_inv {st st' : SearchTerm} {u : Str}
    (h : st.add_exact u = some st') :
    ∃ start, strFind st.normalized u = some start ∧
      st' = { st with exact_matches := st.exact_matches ++ [⟨u, ⟨start, start + u.length⟩⟩] } := by
  unfold SearchTerm.add_exact at h
  cases hf : strFind st.normalized u with
  | none => rw [hf] at h; cases h
  | some start => rw [hf] at h; cases h; exact ⟨start, rfl, rfl⟩

theorem add_not_exact_inv {st st' : SearchTerm} {ne : Str}
    (h : st.add_not_exact ne = some st') :
    ∃ start, strFind st.normalized ne = some start ∧
      st' = { st with not_exact_matches := st.not_exact_matches ++ [⟨ne, ⟨start, start + ne.length⟩⟩] } := by
  unfold SearchTerm.add_not_exact at h
  cases hf : strFind st.normalized ne with
  | none => rw [hf] at h; cases h
  | some start => rw [hf] at h; cases h; exact ⟨start, rfl, rfl⟩

/-- An invariant preserved by the three add functions is preserved by the
n-gram part of the loop body. -/
theorem frqGrams_preserves (pool : Pool) (sw : List Str) (P : SearchTerm → Prop)
    (hexact : ∀ st u st', P st → u ∈ pool → st.add_exact u = some st' → P st')
    (hne : ∀ st w st', P st → st.add_not_exact w = some st' → P st') :
    ∀ st i w st', P st → frqGrams pool sw st i w = some st' → P st' := by
  intro st i w st' hP h
  unfold frqGrams at h
  by_cases h1 : sw.length > i + 1
  · rw [if_pos h1] at h
    cases hA : (match fromExisting pool (w ++ [32] ++ sw.getD (i + 1) []) with
           | some u => st.add_exact u
           | none => st.add_not_exact (w ++ [32] ++ sw.getD (i + 1) [])) with
    | none => rw [hA] at h; cases h
    | some stm =>
      rw [hA] at h
      dsimp only at h
      have hPm : P stm := by
        cases hf : fromExisting pool (w ++ [32] ++ sw.getD (i + 1) []) with
        | some u =>
          rw [hf] at hA
          exact hexact st u stm hP (fromExisting_eq_some hf).1 hA
        | none =>
          rw [hf] at hA
          exact hne st _ stm hP hA
      by_cases h2 : sw.length > i + 2
      · rw [if_pos h2] at h
        cases hf : fromExisting pool
            (w ++ [32] ++ sw.getD (i + 1) [] ++ [32] ++ sw.getD (i + 2) []) with
        | some u =>
          rw [hf] at h
          exact hexact stm u st' hPm (fromExisting_eq_some hf).1 h
        | none => rw [hf] at h; cases h; exact hPm
      · rw [if_neg h2] at h; cases h; exact hPm
  · rw [if_neg h1] at h; cases h; exact hP

/-- An invariant preserved by the three add functions is preserved by the
single-word part of the loop body. -/
theorem frqWord_preserves (pool : Pool) (stw : List Str) (P : SearchTerm → Prop)
    (hcode : ∀ st u st', P st → u ∈ pool → st.add_code u = some st' → P st')
    (hexact : ∀ st u st', P st → u ∈ pool → st.add_exact u = some st' → P st')
    (hne : ∀ st w st', P st → st.add_not_exact w = some st' → P st') :
    ∀ st w st', P st → frqWord pool stw st w = some st' → P st' := by
  intro st w st' hP h
  unfold frqWord at h
  cases hf : fromExisting pool w with
  | none => rw [hf] at h; exact hne st w st' hP h
  | some known =>
    rw [hf] at h
    dsimp only at h
    have hk : known ∈ pool := (fromExisting_eq_some hf).1
    by_cases hl : w.length = 0 ∨ w.length = 1
    · rw [if_pos hl] at h; cases h; exact hP
    · rw [if_neg hl] at h
      by_cases hsw : known ∈ stw
      · rw [if_pos hsw] at h; cases h; exact hP
      · rw [if_neg hsw] at h
        by_cases h23 : w.length = 2 ∨ w.length = 3
        · rw [if_pos h23] at h
          cases hc : st.add_code known with
          | none => rw [hc] at h; cases h
          | some stm =>
            rw [hc] at h
            exact hexact stm known st' (hcode st known stm hP hk hc) hk h
        · rw [if_neg h23] at h
          exact hexact st known st' hP hk h

/-- An invariant preserved by the three add functions is preserved by the
whole from_raw_query loop. -/
theorem frqFold_preserves (pool : Pool) (sw stw : List Str) (P : SearchTerm → Prop)
    (hcode : ∀ st u st', P st → u ∈ pool → st.add_code u = some st' → P st')
    (hexact : ∀ st u st', P st → u ∈ pool → st.add_exact u = some st' → P st')
    (hne : ∀ st w st', P st → st.add_not_exact w = some st' → P st') :
    ∀ (l : List (Nat × Str)) (st st' : SearchTerm), P st →
      l.foldlM (frqStep pool sw stw) st = some st' → P st' := by
  intro l
  induction l with
  | nil =>
    intro st st' hP h
    simp only [List.foldlM_nil, pure, Option.some.injEq] at h
    exact h ▸ hP
  | cons a rest ih =>
    intro st st' hP h
    rw [List.foldlM_cons] at h
    cases hs : frqStep pool sw stw st a with
    | none => rw [hs] at h; cases h
    | some stm =>
      rw [hs] at h
      have hPm : P stm := by
        unfold frqStep at hs
        cases hg : frqGrams pool sw st a.1 a.2 with
        | none => rw [hg] at hs; cases hs
        | some stg =>
          rw [hg] at hs
          have := frqGrams_preserves pool sw P hexact hne st a.1 a.2 stg hP hg
          exact frqWord_preserves pool stw P hcode hexact hne stg a.2 stm this hs
      exact ih stm st' hPm h

/-- C5 (amended): the Levenshtein distance passed to query parsing is stored
unchanged; no clamping into [0, 2] happens anywhere in the core. -/
theorem c5_lev_dist_unclamped (pool : Pool) (raw : Str) (state_filter : Option Str)
    (limit : Nat) (lev_dist : Nat) :
    (SearchTerm.from_raw_query pool raw state_filter limit lev_dist).map
        (fun st => st.lev_dist) =
      (SearchTerm.from_raw_query pool raw state_filter limit lev_dist).map
        (fun _ => lev_dist) := by
  cases h : SearchTerm.from_raw_query pool raw state_filter limit lev_dist with
  | none => rfl
  | some st =>
    have hinv : st.lev_dist = lev_dist := by
      unfold SearchTerm.from_raw_query at h
      refine frqFold_preserves pool _ _ (fun s => s.lev_dist = lev_dist)
        ?_ ?_ ?_ _ _ st rfl h
      · intro s u s' hs hu hadd
        obtain ⟨start, _, rfl⟩ := add_code_inv hadd
        exact hs
      · intro s u s' hs hu hadd
        obtain ⟨start, _, rfl⟩ := add_exact_inv hadd
        exact hs
      · intro s w s' hs hadd
        obtain ⟨start, _, rfl⟩ := add_not_exact_inv hadd
        exact hs
    simp [hinv]

/-- C6 (amended): every term in exact_matches is drawn from the intern pool;
the collection is neither deduplicated nor sorted. -/
theorem c6_exact_terms_interned (pool : Pool) (raw : Str) (state_filter : Option Str)
    (limit : Nat) (lev_dist : Nat) (st : SearchTerm)
    (h : SearchTerm.from_raw_query pool raw state_filter limit lev_dist = some st) :
    ∀ m ∈ st.exact_matches, m.term ∈ pool := by
  unfold SearchTerm.from_raw_query at h
  refine frqFold_preserves pool _ _ (fun s => ∀ m ∈ s.exact_matches, m.term ∈ pool)
    ?_ ?_ ?_ _ _ st (by intro m hm; cases hm) h
  · intro s u s' hs hu hadd
    obtain ⟨start, _, rfl⟩ := add_code_inv hadd
    exact hs
  · intro s u s' hs hu hadd
    obtain ⟨start, _, rfl⟩ := add_exact_inv hadd
    intro m hm
    simp only [List.mem_append, List.mem_singleton] at hm
    rcases hm with hm | hm
    · exact hs m hm
    · subst hm; exact hu
  · intro s w s' hs hadd
    obtain ⟨start, _, rfl⟩ := add_not_exact_inv hadd
    exact hs

/-- C6 (counterexample): for the query "ab cdef" with both words interned,
exact_matches has term lengths [2, 4], which is not sorted by descending
length; and for the query "usa usa" the term "usa" appears twice, so
exact_matches is not duplicate-free either. -/
theorem c6_counterexample :
    ((SearchTerm.from_raw_query [strOf ("ab"), strOf ("cdef")]
        (strOf ("ab cdef")) none 1 2).map
          fun st => st.exact_matches.map fun m => m.term.length) = some [2, 4] ∧
    ¬ List.Pairwise (fun a b : Nat => b ≤ a) [2, 4] ∧
    ((SearchTerm.from_raw_query [strOf ("usa")] (strOf ("usa usa")) none 1 2).map
        fun st => st.exact_matches.map fun m => m.term) =
      some [strOf ("usa"), strOf ("usa")] ∧
    ¬ List.Nodup [strOf ("usa"), strOf ("usa")] :=
  ⟨by decide, by decide, by decide, by decide⟩

/-- Witness configuration for C6: the query "ab" over a pool interning
"ab". -/
def c6Pool : Pool := [strOf ("ab")]

/-- The parsed search term for the C6 witness query. -/
def c6St : SearchTerm :=
  { raw := strOf ("ab"), normalized := strOf ("ab"), stop_words := []
    codes := [⟨strOf ("ab"), ⟨0, 2⟩⟩]
    exact_matches := [⟨strOf ("ab"), ⟨0, 2⟩⟩]
    not_exact_matches := []
    state_filter := none, limit := 1, lev_dist := 2 }

/-- Witness for the amended C6 theorem at a concrete query. -/
theorem c6_witness :
    SearchTerm.from_raw_query c6Pool (strOf ("ab")) none 1 2 = some c6St ∧
    ∀ m ∈ c6St.exact_matches, m.term ∈ c6Pool :=
  ⟨by decide, c6_exact_terms_interned c6Pool (strOf ("ab")) none 1 2 c6St (by decide)⟩

/-- The per-match property of C10: the recorded offset is the first occurrence
of the term in the normalized query and spans exactly the term. -/
def firstOccOffset (s : SearchTerm) (m : MatchDef) : Prop :=
  strFind s.normalized m.term = some m.offset.start ∧
  m.offset.stop = m.offset.start + m.term.length

/-- C10: every match emitted by query parsing (code, exact or not-exact)
carries the byte offset of the first occurrence of its matched string within
the normalized query; matches of a repeated token therefore all share the
first occurrence's offset. -/
theorem c10_offsets_first_occurrence (pool : Pool) (raw : Str)
    (state_filter : Option Str) (limit : Nat) (lev_dist : Nat) (st : SearchTerm)
    (h : SearchTerm.from_raw_query pool raw state_filter limit lev_dist = some st) :
    ∀ m ∈ st.codes ++ st.exact_matches ++ st.not_exact_matches,
      firstOccOffset st m := by
  unfold SearchTerm.from_raw_query at h
  have key := frqFold_preserves pool _ _
    (fun s => (∀ m ∈ s.codes, firstOccOffset s m) ∧
      (∀ m ∈ s.exact_matches, firstOccOffset s m) ∧
      (∀ m ∈ s.not_exact_matches, firstOccOffset s m))
    (by
      intro s u s' hs hu hadd
      obtain ⟨start, hfind, rfl⟩ := add_code_inv hadd
      refine ⟨?_, hs.2.1, hs.2.2⟩
      intro m hm
      simp only [List.mem_append, List.mem_singleton] at hm
      rcases hm with hm | hm
      · exact hs.1 m hm
      · subst hm; exact ⟨hfind, rfl⟩)
    (by
      intro s u s' hs hu hadd
      obtain ⟨start, hfind, rfl⟩ := add_exact_inv hadd
      refine ⟨hs.1, ?_, hs.2.2⟩
      intro m hm
      simp only [List.mem_append, List.mem_singleton] at hm
      rcases hm with hm | hm
      · exact hs.2.1 m hm
      · subst hm; exact ⟨hfind, rfl⟩)
    (by
      intro s w s' hs hadd
      obtain ⟨start, hfind, rfl⟩ := add_not_exact_inv hadd
      refine ⟨hs.1, hs.2.1, ?_⟩
      intro m hm
      simp only [List.mem_append, List.mem_singleton] at hm
      rcases hm with hm | hm
      · exact hs.2.2 m hm
      · subst hm; exact ⟨hfind, rfl⟩)
    _ _ st
    ⟨fun m hm => absurd hm (List.not_mem_nil m),
     fun m hm => absurd hm (List.not_mem_nil m),
     fun m hm => absurd hm (List.not_mem_nil m)⟩ h
  intro m hm
  simp only [List.mem_append] at hm
  rcases hm with (hm | hm) | hm
  · exact key.1 m hm
  · exact key.2.1 m hm
  · exact key.2.2 m hm

/-- Witness pool for C10: "usa" is interned, "usa usa" is not. -/
def c10Pool : Pool := [strOf ("usa")]

/-- The parsed search term for the C10 witness query "usa usa": the second
occurrence of "usa" (at byte 4) is recorded with offset 0. -/
def c10St : SearchTerm :=
  { raw := strOf ("usa usa"), normalized := strOf ("usa usa"), stop_words := []
    codes := [⟨strOf ("usa"), ⟨0, 3⟩⟩, ⟨strOf ("usa"), ⟨0, 3⟩⟩]
    exact_matches := [⟨strOf ("usa"), ⟨0, 3⟩⟩, ⟨strOf ("usa"), ⟨0, 3⟩⟩]
    not_exact_matches := [⟨strOf ("usa usa"), ⟨0, 7⟩⟩]
    state_filter := none, limit := 1, lev_dist := 2 }

/-- Witness for C10 at the query "usa usa". -/
theorem c10_witness :
    SearchTerm.from_raw_query c10Pool (strOf ("usa usa")) none 1 2 = some c10St ∧
    ∀ m ∈ c10St.codes ++ c10St.exact_matches ++ c10St.not_exact_matches,
      firstOccOffset c10St m :=
  ⟨by decide,
   c10_offsets_first_occurrence c10Pool (strOf ("usa usa")) none 1 2 c10St (by decide)⟩

/-! Scoring constants. Modelled from the spec: the berlin-core lib.rs under
src/ is a stale iteration that does not define them, while search.rs,
location.rs, locations_db.rs and graph.rs all import them from the crate
root; the values are those of spec section 4.5. -/

def SCORE_SOFT_MAX : Int := 1000
def STATE_CODE_BOOST : Int := 32
def SUBDIV_CODE_BOOST : Int := 16
def SINGLE_WORD_MATCH_PENALTY : Int := 100
def SEARCH_INCLUSION_THRESHOLD : Int := 400
def GRAPH_EDGE_THRESHOLD : Int := 600

/-- One row-update of the Levenshtein distance table: `pj` holds the previous
row from column 1 on, `diag` the previous row's entry one column back, `cur`
the current row's last computed entry. -/
def levRowGo (c : Nat) : Str → List Nat → Nat → Nat → List Nat
  | [], _, _, _ => []
  | _ :: _, [], _, _ => []
  | tj :: trest, pj :: prest, diag, cur =>
    let cost := if c = tj then 0 else 1
    let v := min (min (cur + 1) (pj + 1)) (diag + cost)
    v :: levRowGo c trest prest pj v

/-- The next full row of the Levenshtein table for source character c. -/
def levRowNext (c : Nat) (t : Str) (prev : List Nat) : List Nat :=
  (prev.headD 0 + 1) :: levRowGo c t prev.tail (prev.headD 0) (prev.headD 0 + 1)

/-- Levenshtein edit distance (strsim::levenshtein), standard dynamic
programming by rows. -/
def levenshtein (s t : Str) : Nat :=
  (s.foldl (fun prev c => levRowNext c t prev) (List.range (t.length + 1))).getLastD 0

example : levenshtein (strOf ("kitten")) (strOf ("sitting")) = 3 := by decide
example : levenshtein (strOf ("paris")) (strOf ("pariss")) = 1 := by decide
example : levenshtein (strOf ("abc")) (strOf ("abc")) = 0 := by decide

/-- Models `(strsim::normalized_levenshtein(subject, term) * SCORE_SOFT_MAX)
as i64`: the f64 similarity `1 - d / maxlen` times 1000, truncated; the f64
arithmetic is modelled exactly over the rationals, with the final cast as a
floor (both arguments are non-negative). -/
def simScore (subject term : Str) : Int :=
  let m := max subject.length term.length
  if m = 0 then SCORE_SOFT_MAX
  else ((1000 * (m - levenshtein subject term)) / m : Nat)

/-- usize subtraction as compiled in release mode: wraps modulo 2^64
(search.rs computes `subject.len() - 2`, which wraps for lengths 0 and 1). -/
def usizeSub (a b : Nat) : Nat := (a + 2 ^ 64 - b) % 2 ^ 64

/-- `SearchTerm::match_str` from search.rs. -/
def SearchTerm.match_str (st : SearchTerm) (subject : Str) : Option Score :=
  let exact := maxScore? (st.exact_matches.filterMap fun m =>
    if m.term = subject then
      some ⟨SCORE_SOFT_MAX + (m.term.length : Int), m.offset⟩
    else none)
  match exact with
  | some s => some s
  | none => maxScore? (st.not_exact_matches.map fun w =>
      let score : Int :=
        if w.term.length > 3 ∧ w.term.isPrefixOf subject then
          SCORE_SOFT_MAX + 2 * (w.term.length : Int)
        else if w.term.length > usizeSub subject.length 2 ∧
            w.term.length < subject.length + 2 then
          simScore subject w.term
        else 0
      ⟨score, w.offset⟩)

/-- `SearchTerm::codes_match` from search.rs. -/
def SearchTerm.codes_match (st : SearchTerm) (subject_codes : List Str)
    (score : Int) : Option Score :=
  maxScore? ((subject_codes.map fun c =>
    (st.codes.filter fun tc => tc.term = c).map fun tc =>
      Score.mk score tc.offset).flatten)

/-! The entity model from location.rs. -/

/-- Locode coordinates (coordinates.rs); the f64 fields are modelled as exact
rationals. -/
structure Coordinates where
  lat : ℚ
  lon : ℚ
deriving DecidableEq

/-- ISO-3166-1 country payload. -/
structure State where
  name : Str
  short : Str
  alpha2 : Str
  alpha3 : Str
  continent : Str
deriving DecidableEq

/-- ISO-3166-2 subdivision payload. -/
structure Subdivision where
  name : Str
  supercode : Str
  subcode : Str
  level : Str
deriving DecidableEq

/-- UN-LOCODE payload (the coordinates field is spelled `coordinages` in the
source). -/
structure Locode where
  name : Str
  supercode : Str
  subcode : Str
  subdivision_name : Option Str
  subdivision_code : Option Str
  function_code : Str
  coordinages : Option Coordinates
deriving DecidableEq

/-- IATA airport payload. -/
structure Airport where
  name : Str
  iata : Str
  airport_type : Str
  city : Option Str
  country : Str
  region : Str
  x : ℚ
  y : ℚ
  elevation : Option Int
deriving DecidableEq

/-- The tagged payload union (location.rs `LocData`, which is `Copy`). -/
inductive LocData where
  | St (s : State)
  | Subdv (sd : Subdivision)
  | Locd (l : Locode)
  | Airp (a : Airport)
deriving DecidableEq

/-- location.rs `Location`. -/
structure Location where
  key : Str
  encoding : Str
  id : Str
  words : List Str
  data : LocData
deriving DecidableEq

def State.get_names (s : State) : List Str :=
  if s.short.length > 3 ∧ s.short ≠ s.name then [s.name, s.short] else [s.name]

def State.get_codes (s : State) : List Str :=
  [s.alpha2, s.alpha3] ++ if s.short.length < 4 then [s.short] else []

def Location.get_names (l : Location) : List Str :=
  match l.data with
  | .St st => st.get_names
  | .Subdv sd => [sd.name]
  | .Locd lc => [lc.name]
  | .Airp ap => [ap.name]

def Location.get_codes (l : Location) : List Str :=
  match l.data with
  | .St st => st.get_codes
  | .Subdv sd => [sd.subcode]
  | .Locd lc => [lc.subcode]
  | .Airp ap => [ap.iata]

/-- location.rs `state_key`: "ISO-3166-1-" ++ code, looked up (not created) in
the intern pool. -/
def state_key (pool : Pool) (state_code : Str) : Option Str :=
  fromExisting pool (strOf ("ISO-3166-1-") ++ state_code)

/-- location.rs `subdiv_key`: "ISO-3166-2-" ++ state ++ ":" ++ subdiv, looked
up in the intern pool. -/
def subdiv_key (pool : Pool) (state_code subdiv_code : Str) : Option Str :=
  fromExisting pool (strOf ("ISO-3166-2-") ++ state_code ++ [58] ++ subdiv_code)

/-- `Location::get_parents`: the optional country key and subdivision key.
For an Airport the source returns `(state_key(country), None)`. -/
def Location.get_parents (pool : Pool) (l : Location) : Option Str × Option Str :=
  match l.data with
  | .St _ => (none, none)
  | .Subdv sd => (state_key pool sd.supercode, none)
  | .Locd lc =>
    (state_key pool lc.supercode,
     lc.subdivision_code.bind fun c => subdiv_key pool lc.supercode c)
  | .Airp a => (state_key pool a.country, none)

/-- `Location::parent_boost` (Rust i64 division truncates toward zero). -/
def Location.parent_boost (l : Location) (score : Int) : Int :=
  match l.data with
  | .St _ => Int.tdiv score 2
  | .Subdv _ => Int.tdiv score 3
  | .Locd _ => Int.tdiv score 4
  | .Airp _ => 0

def Location.get_state (l : Location) : Str :=
  match l.data with
  | .St d => d.alpha2
  | .Subdv d => d.supercode
  | .Locd d => d.supercode
  | .Airp d => d.country

/-- `Location::get_subdiv`: for an Airport, split the region on `-` and look
the second segment up in the intern pool. -/
def Location.get_subdiv (pool : Pool) (l : Location) : Option Str :=
  match l.data with
  | .St _ => none
  | .Subdv sd => some sd.subcode
  | .Locd lc => lc.subdivision_code
  | .Airp a => ((a.region.splitOn 45).get? 1).bind (fromExisting pool)

/-- The shape-independent part of `Location::search` (after the state-filter
gate): the penalized best word match combined with the shape score. -/
def Location.search_inner (l : Location) (t : SearchTerm) : Option Score :=
  let words_score := (l.words.map fun n =>
    (t.match_str n).map fun s =>
      { s with score := s.score - SINGLE_WORD_MATCH_PENALTY }).foldl optScoreMax none
  let score : Option Score :=
    match l.data with
    | .St d =>
      match t.codes_match d.get_codes (SCORE_SOFT_MAX + STATE_CODE_BOOST) with
      | some c => some c
      | none => t.match_str d.name
    | .Subdv d =>
      match t.codes_match [d.subcode] (SCORE_SOFT_MAX + SUBDIV_CODE_BOOST) with
      | some c => some c
      | none => t.match_str d.name
    | .Locd d => optScoreMax (t.match_str d.name) (t.match_str d.subcode)
    | .Airp d => optScoreMax (t.match_str d.name) (t.match_str d.iata)
  optScoreMax words_score score

/-- `Location::search` from location.rs. -/
def Location.search (l : Location) (t : SearchTerm) : Option Score :=
  match t.state_filter with
  | some sf => if l.get_state = sf then l.search_inner t else none
  | none => l.search_inner t

/-- C4 (counterexample): an airport with country "us" and region "us-ca",
where the segment "ca" exists in the intern pool: get_parents still returns
no subdivision component; the region-derived code is only available through
get_subdiv. -/
def c4Pool : Pool := [strOf ("ca"), strOf ("ISO-3166-1-us")]

/-- The concrete airport entity for the C4 counterexample. -/
def c4Airport : Location :=
  { key := strOf ("IATA-xyz"), encoding := strOf ("IATA"), id := strOf ("xyz")
    words := []
    data := .Airp
      { name := strOf ("test field"), iata := strOf ("xyz")
        airport_type := strOf ("small_airport"), city := none
        country := strOf ("us"), region := strOf ("us-ca")
        x := 0, y := 0, elevation := none } }

/-- C4 (counterexample): the claim says get_parents returns the subdivision
key for an airport whenever the second region segment is interned; here the
segment "ca" is interned, get_subdiv finds it, yet the subdivision component
of get_parents is none. -/
theorem c4_counterexample :
    fromExisting c4Pool (strOf ("ca")) = some (strOf ("ca")) ∧
    Location.get_subdiv c4Pool c4Airport = some (strOf ("ca")) ∧
    (Location.get_parents c4Pool c4Airport).1 = some (strOf ("ISO-3166-1-us")) ∧
    (Location.get_parents c4Pool c4Airport).2 = none :=
  ⟨by decide, by decide, by decide, by decide⟩

/-- C4 (amended): for every Airport entity, get_parents returns the country
key derived from its country field and no subdivision key; the subdivision
code obtained by splitting region at `-` and taking the second segment, when
interned, is returned by get_subdiv instead. -/
theorem c4_airport_parents_amended (pool : Pool) (a : Airport)
    (key enc id : Str) (ws : List Str) (seg : Str)
    (hseg : (a.region.splitOn 45).get? 1 = some seg) (hmem : seg ∈ pool) :
    Location.get_parents pool ⟨key, enc, id, ws, .Airp a⟩ =
      (state_key pool a.country, none) ∧
    Location.get_subdiv pool ⟨key, enc, id, ws, .Airp a⟩ = some seg := by
  constructor
  · rfl
  · show ((a.region.splitOn 45).get? 1).bind (fromExisting pool) = some seg
    rw [hseg]
    simp [Option.bind, fromExisting, hmem]

/-- Witness for the amended C4 theorem at the concrete airport above. -/
theorem c4_witness :
    Location.get_parents c4Pool c4Airport =
      (state_key c4Pool (strOf ("us")), none) ∧
    Location.get_subdiv c4Pool c4Airport = some (strOf ("ca")) :=
  c4_airport_parents_amended c4Pool
    { name := strOf ("test field"), iata := strOf ("xyz")
      airport_type := strOf ("small_airport"), city := none
      country := strOf ("us"), region := strOf ("us-ca")
      x := 0, y := 0, elevation := none }
    (strOf ("IATA-xyz")) (strOf ("IATA")) (strOf ("xyz")) [] (strOf ("ca"))
    (by decide) (by decide)

/-! The index from locations_db.rs. -/

/-- locations_db.rs `LocationsDb`. The `fst` field of the source maps each
word of `by_word_map` to its index in the lexicographically sorted
`by_word_vec`, so it is represented by that vector itself: an automaton query
over the FST is exactly a filter of the vector. Hash maps are association
lists; the source's hash iteration order is unspecified and no proved
property depends on the order used here. -/
structure LocationsDb where
  all : List (Str × Location)
  state_by_code : List (Str × Str)
  subdiv_by_code : List (Str × Str)
  by_word_map : List (Str × List Str)
  by_word_vec : List (Str × List Str)

/-- The default (empty) database. -/
def LocationsDb.empty : LocationsDb := ⟨[], [], [], [], []⟩

/-- `LocationsDb::insert`: record country and subdivision names by code, then
insert the entity by key (replacing any previous binding). -/
def LocationsDb.insert (db : LocationsDb) (l : Location) : LocationsDb :=
  let db1 := match l.data with
    | .St s => { db with state_by_code := insertA db.state_by_code s.alpha2 s.name }
    | .Subdv sd => { db with subdiv_by_code := insertA db.subdiv_by_code l.id sd.name }
    | _ => db
  { db1 with all := insertA db1.all l.key l }

/-- Byte-lexicographic strict order on strings (ustr `as_str().cmp`). -/
def strLtB : Str → Str → Bool
  | [], [] => false
  | [], _ :: _ => true
  | _ :: _, [] => false
  | a :: as, b :: bs => if a < b then true else if a = b then strLtB as bs else false

/-- Byte-lexicographic order, non-strict. -/
def strLeB (a b : Str) : Bool := !strLtB b a

/-- `LocationsDb::mk_fst`: build the word map over words, codes and names of
every entity (each word mapping to the set of keys containing it), then the
lexicographically sorted word vector. -/
def LocationsDb.mk_fst (db : LocationsDb) : LocationsDb :=
  let words_map := db.all.foldl (fun wm kv =>
    (kv.2.words ++ kv.2.get_codes ++ kv.2.get_names).foldl (fun wm w =>
      match lookupA wm w with
      | none => insertA wm w [kv.1]
      | some set => insertA wm w (if kv.1 ∈ set then set else set ++ [kv.1])) wm) []
  { db with by_word_map := words_map
            by_word_vec := List.insertionSort (fun a b => strLeB a.1 b.1 = true) words_map }

/-- Set-insert into the candidate list (UstrSet extension). -/
def insertUnique (l : List Str) (k : Str) : List Str := if k ∈ l then l else l ++ [k]

/-- Extend the candidate set by a list of keys. -/
def extendUnique (l : List Str) (ks : List Str) : List Str := ks.foldl insertUnique l

/-- A parent-to-child edge of the reranking graph with its weight
`(parent_score, child_score)` and the boosted total for the child. -/
structure SEdge where
  parent : Str
  child : Str
  weight : Int × Int
  total : Int
deriving DecidableEq

/-- Lexicographic order on edge weights (Rust tuple `Ord`). -/
def wLeB (a b : Int × Int) : Bool :=
  decide (a.1 < b.1 ∨ (a.1 = b.1 ∧ a.2 ≤ b.2))

/-- Update the binding of a key in an association list in place. -/
def updateA {α : Type} (m : List (Str × α)) (k : Str) (f : α → α) : List (Str × α) :=
  m.map fun kv => if kv.1 = k then (kv.1, f kv.2) else kv

/-- Modelled from the spec: the `Score`-valued `ResultsGraph::from_results`
called by `LocationsDb::search` is missing from src (src's graph.rs is an
older i64 iteration with an incompatible signature); per spec section 4.7:
for every candidate, draw an edge from each parent that is itself a candidate
when `min(parent_score, child_score) > GRAPH_EDGE_THRESHOLD`; sort edges by
weight descending; for each edge in that order set
`child.score = max(child.score, parent_boost(parent_score) + child_score)`,
keeping the child's original offset. -/
def rerankSpec (pool : Pool) (db : LocationsDb) (res : List (Str × Score)) :
    List (Str × Score) :=
  let edges : List SEdge := (res.map fun kv =>
    match lookupA db.all kv.1 with
    | none => ([] : List SEdge)
    | some loc =>
      ([(loc.get_parents pool).1, (loc.get_parents pool).2].filterMap id).filterMap
        fun p =>
          match lookupA res p, lookupA db.all p with
          | some pscore, some ploc =>
            if min pscore.score kv.2.score > GRAPH_EDGE_THRESHOLD then
              some (SEdge.mk p kv.1 (pscore.score, kv.2.score)
                (ploc.parent_boost pscore.score + kv.2.score))
            else none
          | _, _ => none).flatten
  let sorted := List.insertionSort (fun a b => wLeB b.weight a.weight = true) edges
  sorted.foldl (fun scores e =>
    updateA scores e.child fun old => { old with score := max old.score e.total }) res

/-- The recall phase of `LocationsDb::search`: keys of exact word-map hits,
then keys of the FST hits of the union of a Levenshtein automaton at
`st.lev_dist` and a prefix automaton, for every not-exact term longer than 3
bytes. -/
def dbCandidates (db : LocationsDb) (st : SearchTerm) : List Str :=
  let pre1 := st.exact_matches.foldl (fun acc term =>
    match lookupA db.by_word_map term.term with
    | some locs => extendUnique acc locs
    | none => acc) []
  let fstHits := db.by_word_vec.filter fun wv =>
    st.not_exact_matches.any fun ne =>
      decide (ne.term.length > 3) &&
        (decide (levenshtein wv.1 ne.term ≤ st.lev_dist) || ne.term.isPrefixOf wv.1)
  fstHits.foldl (fun acc wv => extendUnique acc wv.2) pre1

/-- The scoring phase of `LocationsDb::search`: score every candidate, keep
those whose score exceeds SEARCH_INCLUSION_THRESHOLD. The source unwraps the
key lookup (always present in a db built by mk_fst); a missing key is skipped
here. -/
def dbScored (db : LocationsDb) (st : SearchTerm) : List (Str × Score) :=
  (dbCandidates db st).filterMap fun key =>
    match lookupA db.all key with
    | none => none
    | some loc =>
      match loc.search st with
      | none => none
      | some score =>
        if score.score > SEARCH_INCLUSION_THRESHOLD then some (key, score) else none

/-- The descending result order of `LocationsDb::search`
(`|a, b| b.1.cmp(&a.1)` over Score): a precedes b when b's Score is at most
a's in the total Score order. -/
def resGe (a b : Str × Score) : Prop := Score.leB b.2 a.2 = true

instance : DecidableRel resGe := fun a b => instDecidableEqBool (Score.leB b.2 a.2) true

/-- `LocationsDb::search` from locations_db.rs: recall, parallel scoring with
threshold, graph rerank, sort by Score descending, truncate to the query
limit. -/
def LocationsDb.search (db : LocationsDb) (pool : Pool) (st : SearchTerm) :
    List (Str × Score) :=
  (List.insertionSort resGe (rerankSpec pool db (dbScored db st))).take st.limit

/-- C5 (counterexample) fixtures: a single Locode named "abcdefg". -/
def c5Loc : Location :=
  { key := strOf ("UN-LOCODE-xx:abc"), encoding := strOf ("UN-LOCODE")
    id := strOf ("xx:abc"), words := [strOf ("abcdefg")]
    data := .Locd
      { name := strOf ("abcdefg"), supercode := strOf ("xx")
        subcode := strOf ("abc"), subdivision_name := none
        subdivision_code := none, function_code := strOf ("1")
        coordinages := none } }

/-- The C5 database: the one Locode, indexed. -/
def c5Db : LocationsDb := (LocationsDb.empty.insert c5Loc).mk_fst

/-- C5 (counterexample): the query "xyzdefg" is at Levenshtein distance 3
from the stored word "abcdefg". With lev_distance 5 the search finds the
entity; with lev_distance 2 it finds nothing; and the parsed term stores the
raw value 5. If values greater than 2 were clamped to 2 before reaching the
recall automaton, both searches would return the same result. -/
theorem c5_counterexample :
    ((SearchTerm.from_raw_query [] (strOf ("xyzdefg")) none 1 5).map
        fun st => st.lev_dist) = some 5 ∧
    ((SearchTerm.from_raw_query [] (strOf ("xyzdefg")) none 1 5).map
        fun st => (c5Db.search [] st).map Prod.fst) =
      some [strOf ("UN-LOCODE-xx:abc")] ∧
    ((SearchTerm.from_raw_query [] (strOf ("xyzdefg")) none 1 2).map
        fun st => (c5Db.search [] st).map Prod.fst) = some [] :=
  ⟨by decide, by decide, by decide⟩

/-! Invariants of LocationsDb::search (claim C3). -/

theorem insertUnique_nodup {l : List Str} (h : l.Nodup) (k : Str) :
    (insertUnique l k).Nodup := by
  unfold insertUnique
  split
  · exact h
  · next hk =>
    refine List.Nodup.append h (List.nodup_singleton k) ?_
    intro a ha hb
    rw [List.mem_singleton] at hb
    subst hb
    exact hk ha

theorem extendUnique_nodup {l : List Str} (h : l.Nodup) (ks : List Str) :
    (extendUnique l ks).Nodup := by
  induction ks generalizing l with
  | nil => exact h
  | cons k rest ih => exact ih (insertUnique_nodup h k)

theorem foldl_nodup {β : Type} (f : List Str → β → List Str)
    (hf : ∀ acc b, acc.Nodup → (f acc b).Nodup) :
    ∀ (l : List β) (acc : List Str), acc.Nodup → (l.foldl f acc).Nodup := by
  intro l
  induction l with
  | nil => intro acc h; exact h
  | cons b rest ih => intro acc h; exact ih (f acc b) (hf acc b h)

theorem dbCandidates_nodup (db : LocationsDb) (st : SearchTerm) :
    (dbCandidates db st).Nodup := by
  unfold dbCandidates
  apply foldl_nodup
  · intro acc wv h
    exact extendUnique_nodup h wv.2
  · apply foldl_nodup
    · intro acc term h
      cases hl : lookupA db.by_word_map term.term with
      | none => simpa [hl] using h
      | some locs => simpa [hl] using extendUnique_nodup h locs
    · exact List.nodup_nil

theorem filterMap_keys_sublist {β : Type} (f : Str → Option (Str × β))
    (hf : ∀ k v, f k = some v → v.1 = k) :
    ∀ l : List Str, ((l.filterMap f).map Prod.fst).Sublist l := by
  intro l
  induction l with
  | nil => simp
  | cons k rest ih =>
    cases hfk : f k with
    | none =>
      simp only [List.filterMap_cons, hfk]
      exact ih.cons k
    | some v =>
      simp only [List.filterMap_cons, hfk, List.map_cons]
      rw [hf k v hfk]
      exact ih.cons₂ k

/-- Inversion of one scoring step of dbScored. -/
theorem dbScored_step_inv {db : LocationsDb} {st : SearchTerm} {key : Str}
    {kv : Str × Score}
    (hf : (match lookupA db.all key with
      | none => none
      | some loc =>
        match loc.search st with
        | none => none
        | some score =>
          if score.score > SEARCH_INCLUSION_THRESHOLD then some (key, score)
          else none) = some kv) :
    kv.1 = key ∧ kv.2.score > SEARCH_INCLUSION_THRESHOLD := by
  cases hl : lookupA db.all key with
  | none => rw [hl] at hf; cases hf
  | some loc =>
    rw [hl] at hf
    dsimp only at hf
    cases hs : loc.search st with
    | none => rw [hs] at hf; cases hf
    | some score =>
      rw [hs] at hf
      dsimp only at hf
      split at hf
      · next hgt => cases hf; exact ⟨rfl, hgt⟩
      · cases hf

theorem dbScored_inv {db : LocationsDb} {st : SearchTerm} {kv : Str × Score}
    (h : kv ∈ dbScored db st) : kv.2.score > SEARCH_INCLUSION_THRESHOLD := by
  unfold dbScored at h
  rw [List.mem_filterMap] at h
  obtain ⟨key, _, hf⟩ := h
  exact (dbScored_step_inv hf).2

theorem dbScored_keys_nodup (db : LocationsDb) (st : SearchTerm) :
    ((dbScored db st).map Prod.fst).Nodup := by
  have hsub := filterMap_keys_sublist
    (fun key => match lookupA db.all key with
      | none => none
      | some loc =>
        match loc.search st with
        | none => none
        | some score =>
          if score.score > SEARCH_INCLUSION_THRESHOLD then some (key, score)
          else none)
    (fun k v hf => (dbScored_step_inv hf).1)
    (dbCandidates db st)
  exact (dbCandidates_nodup db st).sublist hsub

theorem updateA_keys {α : Type} (m : List (Str × α)) (k : Str) (f : α → α) :
    (updateA m k f).map Prod.fst = m.map Prod.fst := by
  unfold updateA
  rw [List.map_map]
  apply List.map_congr_left
  intro kv _
  by_cases hk : kv.1 = k <;> simp [hk]

theorem mem_updateA {α : Type} {m : List (Str × α)} {k : Str} {f : α → α}
    {kv : Str × α} (h : kv ∈ updateA m k f) :
    ∃ kv' ∈ m, kv.1 = kv'.1 ∧ (kv.2 = kv'.2 ∨ kv.2 = f kv'.2) := by
  unfold updateA at h
  rw [List.mem_map] at h
  obtain ⟨kv', hm, heq⟩ := h
  by_cases hk : kv'.1 = k
  · rw [if_pos hk] at heq
    exact ⟨kv', hm, by rw [← heq], Or.inr (by rw [← heq])⟩
  · rw [if_neg hk] at heq
    exact ⟨kv', hm, by rw [← heq], Or.inl (by rw [← heq])⟩

theorem rerank_fold_ge (edges : List SEdge) :
    ∀ (res : List (Str × Score)) (kv : Str × Score),
      kv ∈ edges.foldl (fun scores e =>
        updateA scores e.child fun old => { old with score := max old.score e.total }) res →
      ∃ kv' ∈ res, kv.1 = kv'.1 ∧ kv'.2.score ≤ kv.2.score := by
  induction edges with
  | nil => intro res kv h; exact ⟨kv, h, rfl, le_refl _⟩
  | cons e rest ih =>
    intro res kv h
    rw [List.foldl_cons] at h
    obtain ⟨kv', hm', heq, hle⟩ := ih _ kv h
    obtain ⟨kv'', hm'', heq', hor⟩ := mem_updateA hm'
    refine ⟨kv'', hm'', heq.trans heq', le_trans ?_ hle⟩
    rcases hor with hor | hor
    · rw [hor]
    · rw [hor]; exact le_max_left _ _

theorem rerank_fold_keys (edges : List SEdge) :
    ∀ res : List (Str × Score),
      (edges.foldl (fun scores e => updateA scores e.child fun old =>
        { old with score := max old.score e.total }) res).map Prod.fst =
      res.map Prod.fst := by
  induction edges with
  | nil => intro res; rfl
  | cons e rest ih =>
    intro res
    rw [List.foldl_cons, ih, updateA_keys]

theorem rerankSpec_mem {pool : Pool} {db : LocationsDb} {res : List (Str × Score)}
    {kv : Str × Score} (h : kv ∈ rerankSpec pool db res) :
    ∃ kv' ∈ res, kv.1 = kv'.1 ∧ kv'.2.score ≤ kv.2.score := by
  unfold rerankSpec at h
  exact rerank_fold_ge _ _ _ h

theorem rerankSpec_keys (pool : Pool) (db : LocationsDb) (res : List (Str × Score)) :
    (rerankSpec pool db res).map Prod.fst = res.map Prod.fst := by
  unfold rerankSpec
  exact rerank_fold_keys _ _

theorem Score.leB_trans {a b c : Score} (h1 : Score.leB a b = true)
    (h2 : Score.leB b c = true) : Score.leB a c = true := by
  simp only [Score.leB, decide_eq_true_eq] at h1 h2 ⊢
  omega

theorem Score.leB_total (a b : Score) :
    Score.leB a b = true ∨ Score.leB b a = true := by
  simp only [Score.leB, decide_eq_true_eq]
  omega

instance : IsTrans (Str × Score) resGe :=
  ⟨fun _ _ _ h1 h2 => Score.leB_trans h2 h1⟩

instance : IsTotal (Str × Score) resGe :=
  ⟨fun a b => Score.leB_total b.2 a.2⟩

/-- C3: for every built index and every query, LocationsDb::search returns at
most limit entries, no key appears twice, entries are sorted by Score
descending, and every returned score is at least
SEARCH_INCLUSION_THRESHOLD (the scoring phase keeps only scores strictly
above the threshold and the reranking pass never lowers a score). -/
theorem c3_search_invariants (db : LocationsDb) (pool : Pool) (st : SearchTerm) :
    (db.search pool st).length ≤ st.limit ∧
    ((db.search pool st).map Prod.fst).Nodup ∧
    (db.search pool st).Pairwise resGe ∧
    ∀ kv ∈ db.search pool st, SEARCH_INCLUSION_THRESHOLD ≤ kv.2.score := by
  have hperm : (List.insertionSort resGe (rerankSpec pool db (dbScored db st))).Perm
      (rerankSpec pool db (dbScored db st)) := List.perm_insertionSort _ _
  unfold LocationsDb.search
  refine ⟨?_, ?_, ?_, ?_⟩
  · exact List.length_take_le _ _
  · have h1 : ((rerankSpec pool db (dbScored db st)).map Prod.fst).Nodup := by
      rw [rerankSpec_keys]
      exact dbScored_keys_nodup db st
    have h2 : ((List.insertionSort resGe (rerankSpec pool db (dbScored db st))).map
        Prod.fst).Nodup := ((hperm.map Prod.fst).nodup_iff).mpr h1
    exact h2.sublist ((List.take_sublist _ _).map Prod.fst)
  · have hs := List.sorted_insertionSort resGe (rerankSpec pool db (dbScored db st))
    exact hs.sublist (List.take_sublist _ _)
  · intro kv hkv
    have hkv1 : kv ∈ List.insertionSort resGe (rerankSpec pool db (dbScored db st)) :=
      (List.take_sublist _ _).subset hkv
    have hkv2 : kv ∈ rerankSpec pool db (dbScored db st) := hperm.subset hkv1
    obtain ⟨kv', hm', _, hle⟩ := rerankSpec_mem hkv2
    have hgt := dbScored_inv hm'
    omega

/-! The graph reranking pass of graph.rs (claim C1). -/

/-- A directed parent-to-child edge of graph.rs with weight
`(parent_score, child_score)`. -/
structure GEdge where
  a : Str
  b : Str
  w : Int × Int
deriving DecidableEq

/-- Weight-descending processing order of graph.rs
(`edges.sort_unstable_by(|a, b| b.2.cmp(a.2))`). -/
def gEdgeGe (x y : GEdge) : Prop := wLeB y.w x.w = true

instance : DecidableRel gEdgeGe := fun x y => instDecidableEqBool (wLeB y.w x.w) true

theorem wLeB_refl (a : Int × Int) : wLeB a a = true := by
  simp [wLeB]

theorem wLeB_trans {a b c : Int × Int} (h1 : wLeB a b = true)
    (h2 : wLeB b c = true) : wLeB a c = true := by
  obtain ⟨a1, a2⟩ := a
  obtain ⟨b1, b2⟩ := b
  obtain ⟨c1, c2⟩ := c
  simp only [wLeB, decide_eq_true_eq] at h1 h2 ⊢
  omega

theorem wLeB_total (a b : Int × Int) : wLeB a b = true ∨ wLeB b a = true := by
  obtain ⟨a1, a2⟩ := a
  obtain ⟨b1, b2⟩ := b
  simp only [wLeB, decide_eq_true_eq]
  omega

instance : IsTrans GEdge gEdgeGe := ⟨fun _ _ _ h1 h2 => wLeB_trans h2 h1⟩

instance : IsTotal GEdge gEdgeGe := ⟨fun x y => wLeB_total y.w x.w⟩

/-- The initial scores map of `ResultsGraph::from_results`:
`results.iter().collect()` into a UstrMap (later bindings overwrite). -/
def collectScores (results : List (Str × Int)) : List (Str × Int) :=
  results.foldl (fun m kv => insertA m kv.1 kv.2) []

/-- The edge-construction loop of `ResultsGraph::from_results` (graph.rs): for
each result in order, add an edge from each parent (state key, then
subdivision key) that is present in the scores map whenever
`min(parent_score, child_score) > GRAPH_EDGE_THRESHOLD`, weighted
`(parent_score, child_score)`. `none` models the `expect` panic when a result
key is missing from the db. -/
def graphEdges (pool : Pool) (db : LocationsDb) (results : List (Str × Int)) :
    Option (List GEdge) :=
  results.foldlM (fun edges kv =>
    match lookupA db.all kv.1 with
    | none => none
    | some loc =>
      some (edges ++
        ([(loc.get_parents pool).1, (loc.get_parents pool).2].filterMap id).filterMap
          fun sup =>
            match lookupA (collectScores results) sup with
            | some ss =>
              if min ss kv.2 > GRAPH_EDGE_THRESHOLD then
                some (GEdge.mk sup kv.1 (ss, kv.2))
              else none
            | none => none)) []

/-- `ResultsGraph::from_results` from graph.rs (as present in src): plain i64
scores without offsets, edges sorted by weight descending, each edge in that
order overwriting the child's score with `parent_score + child_score`
(`scores.insert(loc.key, edge.2.0 + edge.2.1)`). -/
def fromResults (pool : Pool) (db : LocationsDb) (results : List (Str × Int)) :
    Option (List (Str × Int)) :=
  (graphEdges pool db results).map fun edges =>
    (List.insertionSort gEdgeGe edges).foldl
      (fun m e => insertA m e.b (e.w.1 + e.w.2)) (collectScores results)

/-- C1 fixtures: a country and a Locode child, both candidates. -/
def c1Pool : Pool := [strOf ("ISO-3166-1-gb")]

/-- The country entity of the C1 fixture. -/
def c1Country : Location :=
  { key := strOf ("ISO-3166-1-gb"), encoding := strOf ("ISO-3166-1")
    id := strOf ("gb"), words := []
    data := .St
      { name := strOf ("united kingdom"), short := strOf ("britain")
        alpha2 := strOf ("gb"), alpha3 := strOf ("gbr")
        continent := strOf ("europe") } }

/-- The Locode child entity of the C1 fixture. -/
def c1Child : Location :=
  { key := strOf ("UN-LOCODE-gb:lon"), encoding := strOf ("UN-LOCODE")
    id := strOf ("gb:lon"), words := [strOf ("london")]
    data := .Locd
      { name := strOf ("london"), supercode := strOf ("gb")
        subcode := strOf ("lon"), subdivision_name := none
        subdivision_code := none, function_code := strOf ("1")
        coordinages := none } }

/-- The C1 fixture database. -/
def c1Db : LocationsDb :=
  ⟨[(strOf ("ISO-3166-1-gb"), c1Country), (strOf ("UN-LOCODE-gb:lon"), c1Child)],
   [], [], [], []⟩

/-- The C1 fixture candidate scores: parent 1000, child 700. -/
def c1Results : List (Str × Int) :=
  [(strOf ("ISO-3166-1-gb"), 1000), (strOf ("UN-LOCODE-gb:lon"), 700)]

/-- C1 (counterexample): on the fixture the rerank pass leaves the child with
score 1000 + 700 = 1700, whereas the claim's update rule
max(child, parent_boost(parent) + child) = max(700, 1000/2 + 700) would give
1200: the code adds the full parent score, applies no parent_boost divisor
and takes no max. -/
theorem c1_counterexample :
    (fromResults c1Pool c1Db c1Results).map
        (fun m => lookupA m (strOf ("UN-LOCODE-gb:lon"))) = some (some 1700) ∧
    max 700 (Location.parent_boost c1Country 1000 + 700) = 1200 ∧
    ¬ (1700 : Int) = max 700 (Location.parent_boost c1Country 1000 + 700) :=
  ⟨by decide, by decide, by decide⟩

/-- The one fold step of the graph.rs rerank: overwrite the child's score
with the sum of the edge weight components. -/
def gStep (m : List (Str × Int)) (e : GEdge) : List (Str × Int) :=
  insertA m e.b (e.w.1 + e.w.2)

theorem lookupA_insertA {α : Type} (m : List (Str × α)) (k k' : Str) (v : α) :
    lookupA (insertA m k v) k' = if k = k' then some v else lookupA m k' := by
  induction m with
  | nil => simp [insertA, lookupA]
  | cons kv rest ih =>
    by_cases hk : kv.1 = k
    · simp only [insertA, if_pos hk]
      by_cases hk' : k = k'
      · simp [lookupA, hk']
      · simp only [lookupA, if_neg hk', if_neg (fun h => hk' (hk ▸ h))]
    · simp only [insertA, if_neg hk]
      by_cases hk2 : kv.1 = k'
      · have hkk' : ¬ k = k' := fun h => hk (h ▸ hk2)
        simp [lookupA, hk2, hkk']
      · simp only [lookupA, if_neg hk2]
        exact ih

/-- Folding the overwrite step over a weight-descending edge list: a key with
no incoming edge keeps its initial binding; a key with incoming edges ends
with the sum of a minimal-weight incoming edge. -/
theorem gFold_sorted_min (l : List GEdge)
    (hsort : List.Pairwise gEdgeGe l) :
    ∀ (init : List (Str × Int)) (k : Str),
      ((∀ e ∈ l, e.b ≠ k) → lookupA (l.foldl gStep init) k = lookupA init k) ∧
      (∀ e₀ ∈ l, e₀.b = k →
        ∃ e ∈ l, e.b = k ∧ lookupA (l.foldl gStep init) k = some (e.w.1 + e.w.2) ∧
          ∀ e' ∈ l, e'.b = k → wLeB e.w e'.w = true) := by
  induction l with
  | nil =>
    intro init k
    exact ⟨fun _ => rfl, fun e₀ h => absurd h (List.not_mem_nil e₀)⟩
  | cons e rest ih =>
    intro init k
    have hpair := List.pairwise_cons.mp hsort
    have ihr := ih hpair.2
    constructor
    · intro hnone
      rw [List.foldl_cons]
      rw [(ihr (gStep init e) k).1 fun e' he' => hnone e' (List.mem_cons_of_mem e he')]
      unfold gStep
      rw [lookupA_insertA]
      rw [if_neg fun h => hnone e (List.mem_cons_self e rest) h]
    · intro e₀ he₀ hb₀
      rw [List.foldl_cons]
      by_cases hex : ∃ er ∈ rest, er.b = k
      · obtain ⟨er, her, hbr⟩ := hex
        obtain ⟨e₁, he₁, hb₁, hlook, hmin⟩ := (ihr (gStep init e) k).2 er her hbr
        refine ⟨e₁, List.mem_cons_of_mem e he₁, hb₁, hlook, ?_⟩
        intro e' he' hb'
        rcases List.mem_cons.mp he' with he' | he'
        · subst he'
          exact hpair.1 e₁ he₁
        · exact hmin e' he' hb'
      · have hrest_ne : ∀ e' ∈ rest, e'.b ≠ k := fun e' he' hb' => hex ⟨e', he', hb'⟩
        have hb : e.b = k := by
          rcases List.mem_cons.mp he₀ with he₀ | he₀
          · exact he₀ ▸ hb₀
          · exact absurd hb₀ (hrest_ne e₀ he₀)
        refine ⟨e, List.mem_cons_self e rest, hb, ?_, ?_⟩
        · rw [(ihr (gStep init e) k).1 hrest_ne]
          unfold gStep
          rw [lookupA_insertA, if_pos hb]
        · intro e' he' hb'
          rcases List.mem_cons.mp he' with he' | he'
          · subst he'; exact wLeB_refl _
          · exact absurd hb' (hrest_ne e' he')

/-- C1 (amended): after the graph.rs rerank, every candidate with no incoming
edge keeps its initial score, and every candidate with incoming edges ends
with parent_score + child_score of a minimal-weight incoming edge (edges are
processed in weight-descending order and each one overwrites the child's
score with the full, un-boosted sum; scores carry no offsets). -/
theorem c1_graph_rerank_amended (pool : Pool) (db : LocationsDb)
    (results : List (Str × Int)) (edges : List GEdge) (final : List (Str × Int))
    (hE : graphEdges pool db results = some edges)
    (hF : fromResults pool db results = some final) (k : Str) :
    ((∀ e ∈ edges, e.b ≠ k) → lookupA final k = lookupA (collectScores results) k) ∧
    (∀ e₀ ∈ edges, e₀.b = k →
      ∃ e ∈ edges, e.b = k ∧ lookupA final k = some (e.w.1 + e.w.2) ∧
        ∀ e' ∈ edges, e'.b = k → wLeB e.w e'.w = true) := by
  unfold fromResults at hF
  rw [hE] at hF
  dsimp only [Option.map] at hF
  injection hF with hF
  have hperm := List.perm_insertionSort gEdgeGe edges
  have hsort := List.sorted_insertionSort gEdgeGe edges
  have key := gFold_sorted_min (List.insertionSort gEdgeGe edges) hsort
    (collectScores results) k
  constructor
  · intro hnone
    rw [← hF]
    exact key.1 fun e he => hnone e (hperm.subset he)
  · intro e₀ he₀ hb₀
    obtain ⟨e, he, hb, hlook, hmin⟩ :=
      key.2 e₀ (hperm.mem_iff.mpr he₀) hb₀
    exact ⟨e, hperm.subset he, hb, hF ▸ hlook,
      fun e' he' hb' => hmin e' (hperm.mem_iff.mpr he') hb'⟩

/-- The edge list computed on the C1 fixture. -/
def c1Edges : List GEdge :=
  [GEdge.mk (strOf ("ISO-3166-1-gb")) (strOf ("UN-LOCODE-gb:lon")) (1000, 700)]

/-- The final scores computed on the C1 fixture. -/
def c1Final : List (Str × Int) :=
  [(strOf ("ISO-3166-1-gb"), 1000), (strOf ("UN-LOCODE-gb:lon"), 1700)]

/-- Witness for the amended C1 theorem on the concrete fixture. -/
theorem c1_witness :
    graphEdges c1Pool c1Db c1Results = some c1Edges ∧
    fromResults c1Pool c1Db c1Results = some c1Final ∧
    (((∀ e ∈ c1Edges, e.b ≠ strOf ("UN-LOCODE-gb:lon")) →
        lookupA c1Final (strOf ("UN-LOCODE-gb:lon")) =
          lookupA (collectScores c1Results) (strOf ("UN-LOCODE-gb:lon"))) ∧
      (∀ e₀ ∈ c1Edges, e₀.b = strOf ("UN-LOCODE-gb:lon") →
        ∃ e ∈ c1Edges, e.b = strOf ("UN-LOCODE-gb:lon") ∧
          lookupA c1Final (strOf ("UN-LOCODE-gb:lon")) = some (e.w.1 + e.w.2) ∧
          ∀ e' ∈ c1Edges, e'.b = strOf ("UN-LOCODE-gb:lon") →
            wLeB e.w e'.w = true)) :=
  ⟨by decide, by decide,
   c1_graph_rerank_amended c1Pool c1Db c1Results c1Edges c1Final
     (by decide) (by decide) (strOf ("UN-LOCODE-gb:lon"))⟩

/-! Ingestion (claims C7 and C8). -/

/-- A decoded JSON value (serde_json::Value restricted to the shapes the
reference data uses: strings, numbers and objects). -/
inductive JsonVal where
  | jstr (s : Str)
  | jnum (q : ℚ)
  | jobj (fields : List (Str × JsonVal))

/-- location.rs `AnyLocation`: the raw record envelope with schema tag `<c>`,
id `i` and payload `d`. -/
structure AnyLocation where
  c : Str
  i : Str
  d : JsonVal

/-- Models serde `from_value::<HashMap<String, String>>`: succeeds only on an
object whose values are all strings. -/
def decodeStringMap : JsonVal → Except Str (List (Str × Str))
  | .jobj fields => fields.mapM fun kv =>
      match kv.2 with
      | .jstr s => Except.ok (kv.1, s)
      | _ => Except.error (strOf ("expected string"))
  | _ => Except.error (strOf ("expected object"))

/-- location.rs `extract_field`: a required field of a decoded string map. -/
def extract_field (hm : List (Str × Str)) (field : Str) : Except Str Str :=
  match lookupA hm field with
  | some v => Except.ok v
  | none => Except.error (strOf ("Missing field ") ++ field)

/-- `State::from_raw`. -/
def State.from_raw (r : JsonVal) : Except Str State := do
  let m ← decodeStringMap r
  let name ← extract_field m (strOf ("name"))
  let short ← extract_field m (strOf ("short"))
  let alpha2 ← extract_field m (strOf ("alpha2"))
  let alpha3 ← extract_field m (strOf ("alpha3"))
  let continent ← extract_field m (strOf ("continent"))
  pure { name := normalize name, short := normalize short
         alpha2 := normalize alpha2, alpha3 := normalize alpha3
         continent := normalize continent }

/-- `Subdivision::from_raw`. -/
def Subdivision.from_raw (r : JsonVal) : Except Str Subdivision := do
  let m ← decodeStringMap r
  let name ← extract_field m (strOf ("name"))
  let supercode ← extract_field m (strOf ("supercode"))
  let subcode ← extract_field m (strOf ("subcode"))
  let level ← extract_field m (strOf ("level"))
  pure { name := normalize name, supercode := normalize supercode
         subcode := normalize subcode, level := normalize level }

/-- `Locode::from_raw`. -/
def Locode.from_raw (r : JsonVal) : Except Str Locode := do
  let m ← decodeStringMap r
  let name ← extract_field m (strOf ("name"))
  let supercode ← extract_field m (strOf ("supercode"))
  let subcode ← extract_field m (strOf ("subcode"))
  let function_code ← extract_field m (strOf ("function_code"))
  pure { name := normalize name, supercode := normalize supercode
         subcode := normalize subcode
         subdivision_name := (lookupA m (strOf ("subdivision_name"))).map normalize
         subdivision_code := (lookupA m (strOf ("subdivision_code"))).map normalize
         function_code := normalize function_code
         coordinages := none }

/-- location.rs `AirportRaw` (the serde shape; elevation is an optional
string). -/
structure AirportRaw where
  name : Str
  iata : Str
  airport_type : Str
  city : Option Str
  country : Str
  region : Str
  y : ℚ
  x : ℚ
  elevation : Option Str

/-- A required string field of a JSON object. -/
def getStrField (fields : List (Str × JsonVal)) (k : Str) : Except Str Str :=
  match lookupA fields k with
  | some (.jstr s) => Except.ok s
  | _ => Except.error (strOf ("expected string field ") ++ k)

/-- A required numeric field of a JSON object. -/
def getNumField (fields : List (Str × JsonVal)) (k : Str) : Except Str ℚ :=
  match lookupA fields k with
  | some (.jnum q) => Except.ok q
  | _ => Except.error (strOf ("expected number field ") ++ k)

/-- An optional string field of a JSON object. -/
def getOptStrField (fields : List (Str × JsonVal)) (k : Str) :
    Except Str (Option Str) :=
  match lookupA fields k with
  | some (.jstr s) => Except.ok (some s)
  | none => Except.ok none
  | some _ => Except.error (strOf ("expected string field ") ++ k)

/-- Models serde `from_value::<AirportRaw>`. -/
def AirportRaw.from_json : JsonVal → Except Str AirportRaw
  | .jobj fields => do
    let name ← getStrField fields (strOf ("name"))
    let iata ← getStrField fields (strOf ("iata"))
    let airport_type ← getStrField fields (strOf ("type"))
    let city ← getOptStrField fields (strOf ("city"))
    let country ← getStrField fields (strOf ("country"))
    let region ← getStrField fields (strOf ("region"))
    let y ← getNumField fields (strOf ("y"))
    let x ← getNumField fields (strOf ("x"))
    let elevation ← getOptStrField fields (strOf ("elevation"))
    pure { name, iata, airport_type, city, country, region, y, x, elevation }
  | _ => Except.error (strOf ("expected object"))

/-- The numeric value of a non-empty all-digit string; none otherwise. -/
def digitsToNat? (s : Str) : Option Nat :=
  match s with
  | [] => none
  | _ =>
    s.foldl (fun acc c =>
      acc.bind fun n => if 48 ≤ c ∧ c ≤ 57 then some (n * 10 + (c - 48)) else none)
      (some 0)

/-- Models Rust `str::parse::<i16>`: optional sign, decimal digits only, and
the value must fit in i16. -/
def parseI16 (s : Str) : Option Int :=
  match s with
  | 43 :: rest => (digitsToNat? rest).bind fun n =>
      if n ≤ 32767 then some ((n : Int)) else none
  | 45 :: rest => (digitsToNat? rest).bind fun n =>
      if n ≤ 32768 then some (-(n : Int)) else none
  | _ => (digitsToNat? s).bind fun n =>
      if n ≤ 32767 then some ((n : Int)) else none

/-- `Airport::from_raw`: serde decode failures are Err (logged and skipped by
the ingest loop); `none` models the `expect("parse elevation")` panic when the
elevation string is present but not a valid i16. -/
def Airport.from_raw (r : JsonVal) : Option (Except Str Airport) :=
  match AirportRaw.from_json r with
  | .error e => some (.error e)
  | .ok raw =>
    match raw.elevation with
    | none => some (.ok
        { name := normalize raw.name, iata := normalize raw.iata
          airport_type := raw.airport_type, city := raw.city.map normalize
          country := normalize raw.country, region := normalize raw.region
          x := raw.x, y := raw.y, elevation := none })
    | some e =>
      match parseI16 e with
      | none => none
      | some v => some (.ok
          { name := normalize raw.name, iata := normalize raw.iata
            airport_type := raw.airport_type, city := raw.city.map normalize
            country := normalize raw.country, region := normalize raw.region
            x := raw.x, y := raw.y, elevation := some v })

/-- The words of an entity: the whitespace tokens of its display names longer
than 3 characters, deduplicated (the source collects them into a UstrSet
whose iteration order is arbitrary). -/
def mkWords (names : List Str) : List Str :=
  ((names.map fun n => (n.splitOn 32).filter fun w => w.length > 3).flatten).dedup

/-- `Location::from_raw` from location.rs: dispatch on the schema tag; `none`
models a panic (unknown schema tag, or the Airport elevation parse); Err is a
recoverable decode error that the caller logs and skips. -/
def Location.from_raw (r : AnyLocation) : Option (Except Str Location) :=
  let dataE : Option (Except Str LocData) :=
    if r.c = strOf ("ISO-3166-1") then some ((State.from_raw r.d).map .St)
    else if r.c = strOf ("ISO-3166-2") then some ((Subdivision.from_raw r.d).map .Subdv)
    else if r.c = strOf ("UN-LOCODE") then some ((Locode.from_raw r.d).map .Locd)
    else if r.c = strOf ("IATA") then
      (Airport.from_raw r.d).map fun e => e.map .Airp
    else none
  dataE.map fun de => de.map fun data =>
    let id := normalize r.i
    let key := r.c ++ [45] ++ id
    let names := (Location.mk key r.c id [] data).get_names
    { key := key, encoding := r.c, id := id
      words := mkWords names, data := data }

/-- The record loop of `parse_data_files` / `parse_data_blocks`: decode each
record with Location::from_raw, log and skip Err records, insert Ok records;
`none` (a panic inside from_raw) aborts the whole run. -/
def ingestRecords (recs : List AnyLocation) : Option LocationsDb :=
  recs.foldlM (fun db r =>
    (Location.from_raw r).map fun res =>
      match res with
      | .ok l => db.insert l
      | .error _ => db) LocationsDb.empty

/-- A well-formed country record. -/
def c7GoodState : AnyLocation :=
  { c := strOf ("ISO-3166-1"), i := strOf ("GB")
    d := .jobj [(strOf ("name"), .jstr (strOf ("United Kingdom"))),
                (strOf ("short"), .jstr (strOf ("Britain"))),
                (strOf ("alpha2"), .jstr (strOf ("GB"))),
                (strOf ("alpha3"), .jstr (strOf ("GBR"))),
                (strOf ("continent"), .jstr (strOf ("Europe")))] }

/-- A malformed country record (missing fields): a recoverable Err. -/
def c7MalformedState : AnyLocation :=
  { c := strOf ("ISO-3166-1"), i := strOf ("XX")
    d := .jobj [(strOf ("name"), .jstr (strOf ("Nowhere")))] }

/-- An airport record whose elevation field is not a parseable integer. -/
def c7BadAirport : AnyLocation :=
  { c := strOf ("IATA"), i := strOf ("TST")
    d := .jobj [(strOf ("name"), .jstr (strOf ("Test Field"))),
                (strOf ("iata"), .jstr (strOf ("TST"))),
                (strOf ("type"), .jstr (strOf ("small_airport"))),
                (strOf ("country"), .jstr (strOf ("GB"))),
                (strOf ("region"), .jstr (strOf ("GB-LON"))),
                (strOf ("y"), .jnum 51),
                (strOf ("x"), .jnum 0),
                (strOf ("elevation"), .jstr (strOf ("abc")))] }

/-- C7: a record with a malformed payload for a known schema is skipped and
the batch survives (first two conjuncts), but an Airport record whose
elevation is not a parseable i16 panics in `expect("parse elevation")` and
kills the whole ingest run (last two conjuncts), contradicting the claim
that malformed records within a known schema are logged and skipped. -/
theorem c7_elevation_panic :
    (Location.from_raw c7MalformedState).isSome = true ∧
    ((ingestRecords [c7GoodState, c7MalformedState]).map fun db => db.all.length) =
      some 1 ∧
    (Location.from_raw c7BadAirport).isSome = false ∧
    ((ingestRecords [c7GoodState, c7BadAirport]).map fun db => db.all.length) =
      none :=
  ⟨by decide, by decide, by decide, by decide⟩

/-- location.rs `CsvLocode`: a row of the tabular Locode file. -/
structure CsvLocode where
  country : Str
  subcode : Str
  name : Str
  name_wo_diacritics : Str
  subdivision_code : Str
  status : Str
  function : Str
  date : Str
  iata_code : Str
  coordinates : Option Str
deriving DecidableEq

/-- `CsvLocode::key`: `UN-LOCODE-<country>:<location>`, normalized. -/
def CsvLocode.key (r : CsvLocode) : Str :=
  strOf ("UN-LOCODE-") ++ normalize r.country ++ [58] ++ normalize r.subcode

/-- ASCII decimal digit test. -/
def isDigitN (c : Nat) : Bool := decide (48 ≤ c ∧ c ≤ 57)

/-- The numeric value of a digit string. -/
def digitsVal (ds : Str) : Nat := ds.foldl (fun a c => a * 10 + (c - 48)) 0

/-- nom `digit1`: one or more digits, maximal munch. -/
def digit1P (i : Str) : Option (Str × Str) :=
  match i.takeWhile isDigitN with
  | [] => none
  | ds => some (i.dropWhile isDigitN, ds)

/-- nom `space1`: one or more whitespace characters. -/
def space1P (i : Str) : Option Str :=
  match i.takeWhile (fun c => decide (c = 32 ∨ c = 9)) with
  | [] => none
  | _ => some (i.dropWhile (fun c => decide (c = 32 ∨ c = 9)))

/-- nom `count(digit, n)`: exactly n digits. -/
def countDigitsP (n : Nat) (i : Str) : Option (Str × Str) :=
  if (i.take n).length = n ∧ (i.take n).all isDigitN then some (i.drop n, i.take n)
  else none

/-- nom `char(c)`. -/
def charP (c : Nat) (i : Str) : Option Str :=
  match i with
  | c' :: rest => if c' = c then some rest else none
  | [] => none

/-- coordinates.rs `float_from_deg_min` over exact rationals:
degrees + minutes / 60. -/
def float_from_deg_min (deg mins : Str) : ℚ :=
  (digitsVal deg : ℚ) + (digitsVal mins : ℚ) / 60

/-- Models `coordinate_parser` from coordinates.rs (nom): two latitude degree
digits, one or more minute digits, N or S, whitespace, three longitude degree
digits, one or more minute digits, E or W; south and west are negative. -/
def coordinate_parsing (i : Str) : Option (Str × Coordinates) := do
  let (i, latDeg) ← countDigitsP 2 i
  let (i, latMin) ← digit1P i
  let (i, latNorth) ← (match charP 78 i with
    | some rest => some (rest, true)
    | none => (charP 83 i).map fun rest => (rest, false))
  let i ← space1P i
  let (i, lonDeg) ← countDigitsP 3 i
  let (i, lonMin) ← digit1P i
  let (i, lonEast) ← (match charP 69 i with
    | some rest => some (rest, true)
    | none => (charP 87 i).map fun rest => (rest, false))
  pure (i,
    { lat := if latNorth then float_from_deg_min latDeg latMin
             else -float_from_deg_min latDeg latMin
      lon := if lonEast then float_from_deg_min lonDeg lonMin
             else -float_from_deg_min lonDeg lonMin })

/-- `CsvLocode::parse_coordinates`: a parse failure is logged and yields
None. -/
def CsvLocode.parse_coordinates (r : CsvLocode) : Option Coordinates :=
  r.coordinates.bind fun c => (coordinate_parsing c).map Prod.snd

/-- The second ingest pass of `parse_data_files` over the tabular Locode
file. Faithful to the source: `LocData` is `Copy`, so the match arm
`LocData::Locd(mut d) => d.coordinages = coord` binds and mutates a copy of
`loc.data`, leaving the stored entity untouched - the pass changes nothing.
`none` models the `panic!("should not happen")` on a non-Locode entity found
under a Locode key. -/
def csvUpdatePass (db : LocationsDb) (rows : List CsvLocode) : Option LocationsDb :=
  rows.foldlM (fun db row =>
    match lookupA db.all row.key with
    | none => some db
    | some loc =>
      match loc.data with
      | .Locd d =>
        let _updated : Locode := { d with coordinages := row.parse_coordinates }
        some db
      | _ => none) db

/-- The stored Locode of the C8 fixture, with no coordinates. -/
def c8Loc : Location :=
  { key := strOf ("UN-LOCODE-gb:lon"), encoding := strOf ("UN-LOCODE")
    id := strOf ("gb:lon"), words := [strOf ("london")]
    data := .Locd
      { name := strOf ("london"), supercode := strOf ("gb")
        subcode := strOf ("lon"), subdivision_name := none
        subdivision_code := none, function_code := strOf ("1")
        coordinages := none } }

/-- The C8 fixture database. -/
def c8Db : LocationsDb := ⟨[(strOf ("UN-LOCODE-gb:lon"), c8Loc)], [], [], [], []⟩

/-- A CSV row matching the stored Locode, with a parseable coordinate
literal. -/
def c8Row : CsvLocode :=
  { country := strOf ("GB"), subcode := strOf ("LON"), name := strOf ("London")
    name_wo_diacritics := strOf ("London"), subdivision_code := strOf ("")
    status := strOf (""), function := strOf (""), date := strOf ("")
    iata_code := strOf (""), coordinates := some (strOf ("5130N 00008E")) }

/-- C8: the row's key matches the stored Locode and its coordinate literal
parses to (51.5, 2/15 east), yet after the pass the database is exactly what
it was and the stored coordinages field is still none: the source mutates a
by-value copy of the Copy payload, so nothing is updated in place. -/
theorem c8_csv_pass_updates_nothing :
    CsvLocode.key c8Row = strOf ("UN-LOCODE-gb:lon") ∧
    CsvLocode.parse_coordinates c8Row =
      some { lat := float_from_deg_min (strOf ("51")) (strOf ("30"))
             lon := float_from_deg_min (strOf ("000")) (strOf ("08")) } ∧
    float_from_deg_min (strOf ("51")) (strOf ("30")) = 103 / 2 ∧
    float_from_deg_min (strOf ("000")) (strOf ("08")) = 2 / 15 ∧
    csvUpdatePass c8Db [c8Row] = some c8Db ∧
    ((lookupA c8Db.all (strOf ("UN-LOCODE-gb:lon"))).map fun l =>
      match l.data with
      | .Locd d => d.coordinages
      | _ => none) = some none := by
  refine ⟨by decide, by rfl, ?_, ?_, by rfl, by decide⟩
  · show (digitsVal (strOf ("51")) : ℚ) + (digitsVal (strOf ("30")) : ℚ) / 60 = 103 / 2
    have h1 : digitsVal (strOf ("51")) = 51 := by decide
    have h2 : digitsVal (strOf ("30")) = 30 := by decide
    rw [h1, h2]
    norm_num
  · show (digitsVal (strOf ("000")) : ℚ) + (digitsVal (strOf ("08")) : ℚ) / 60 = 2 / 15
    have h1 : digitsVal (strOf ("000")) = 0 := by decide
    have h2 : digitsVal (strOf ("08")) = 8 := by decide
    rw [h1, h2]
    norm_num

end Berlin
